import Mathlib

/-!
Shallow embedding of the rulego repository fragments:
  * `utils/str/str.go` — string utilities (`SprintfDict`, `ProcessVar`,
    `ToString`, `CheckHasVar`, `ConvertDollarPlaceholder`),
  * `api/types/config.go` — engine configuration (`Config`, `NewConfig`,
    `DefaultPool`, the `With*` options),
  * `components/action/db_client_node.go` (shown in `doc/versions/v0.14.0.md`)
    — the database client node (`Init`, `OnMsg`),
and, where the engine code itself is absent from the excerpt, models of the
dispatch algorithm and the worker pool taken from the specification.

Go strings are modelled as Lean `String`/`List Char`; Go byte-indexing
subtleties do not arise for the functions embedded here (they operate on
ASCII delimiters).  Machine integers are modelled as `Int`/`Nat` with
explicit wrapping where it matters.  Functions that in Go perform I/O
(database open/ping/query) take the outcome of that I/O as an explicit
parameter.
-/

namespace Rulego

/-! ## Go string primitives used by `utils/str/str.go` -/

/-- Embedding of Go `strings.Replace(s, pat, rep, 1)` on character lists:
replace the first occurrence of `pat` in `s` by `rep`.  (For the empty
pattern Go inserts `rep` before the first character, which the
`isPrefixOf` branch also produces.) -/
def replaceFirst (pat rep : List Char) : List Char → List Char
  | [] => []
  | c :: cs =>
    if pat.isPrefixOf (c :: cs) then rep ++ (c :: cs).drop pat.length
    else c :: replaceFirst pat rep cs

/-- The scan of Go `strings.Replace(s, pat, rep, -1)`: replace every
non-overlapping occurrence of `pat` in `s` by `rep`, left to right,
continuing after each replacement.  Each step consumes at least one
character, so `fuel := s.length` (supplied by `replaceAll`) never runs
out; the explicit fuel only makes the recursion structural. -/
def replaceAllFuel (pat rep : List Char) : Nat → List Char → List Char
  | _, [] => []
  | 0, s => s
  | fuel + 1, c :: cs =>
    if pat ≠ [] ∧ pat.isPrefixOf (c :: cs) then
      rep ++ replaceAllFuel pat rep fuel (cs.drop (pat.length - 1))
    else
      c :: replaceAllFuel pat rep fuel cs

/-- Embedding of Go `strings.Replace(s, pat, rep, -1)` on character lists.
All call sites in the repository pass a nonempty pattern; for an empty
pattern this returns `s` unchanged. -/
def replaceAll (pat rep s : List Char) : List Char :=
  replaceAllFuel pat rep s.length s

/-- Embedding of Go `strings.Contains(s, pat)` on character lists. -/
def hasSubstr (pat : List Char) : List Char → Bool
  | [] => pat.isEmpty
  | c :: cs => pat.isPrefixOf (c :: cs) || hasSubstr pat cs

/-! ## `utils/str/str.go` -/

/-- `const varPatternLeft = "${"` (the brace written as an escape). -/
def varPatternLeft : String := "$\x7b"

/-- `const varPatternRight = "}"` (the brace written as an escape). -/
def varPatternRight : String := "\x7d"

/-- Embedding of `ProcessVar(pattern, key, val)`:
`strings.Replace(pattern, "${"+key+"}", fmt.Sprintf("%s", val), -1)`.
The dictionary values reaching this function in the claims are strings, on
which `fmt.Sprintf("%s", val)` is the identity. -/
def ProcessVar (pattern key val : String) : String :=
  ⟨replaceAll (varPatternLeft ++ key ++ varPatternRight).data val.data pattern.data⟩

/-- Embedding of `SprintfDict(pattern, dict)`.  Go iterates the map with
`for key, value := range dict`, whose order is unspecified; the model
therefore takes the dictionary together with its iteration order as an
association list and folds `ProcessVar` over it. -/
def SprintfDict (pattern : String) (dict : List (String × String)) : String :=
  dict.foldl (fun result kv => ProcessVar result kv.1 kv.2) pattern

/-- Embedding of `CheckHasVar(str)`:
`strings.Contains(str, "${") && strings.Contains(str, "}")`. -/
def CheckHasVar (str : String) : Bool :=
  hasSubstr varPatternLeft.data str.data && hasSubstr varPatternRight.data str.data

/-- Embedding of Go `fmt.Sprintf("%d", n)` for a natural number: the usual
decimal digits, most significant first. -/
def natDecimal (n : Nat) : List Char :=
  if n < 10 then [Nat.digitChar n]
  else natDecimal (n / 10) ++ [Nat.digitChar (n % 10)]
termination_by n
decreasing_by
  exact Nat.div_lt_self (by omega) (by omega)

theorem digitChar_ne_question : ∀ k, k < 10 → Nat.digitChar k ≠ '?' := by decide

theorem natDecimal_no_question (n : Nat) : '?' ∉ natDecimal n := by
  induction n using Nat.strong_induction_on with
  | _ n ih =>
    rw [natDecimal]
    split
    · rename_i h
      intro hx
      exact digitChar_ne_question n h (List.mem_singleton.1 hx).symm
    · rename_i h
      intro hx
      rcases List.mem_append.1 hx with h1 | h2
      · exact ih (n / 10) (Nat.div_lt_self (by omega) (by omega)) h1
      · exact digitChar_ne_question (n % 10) (Nat.mod_lt _ (by omega))
          (List.mem_singleton.1 h2).symm

theorem count_replaceFirst_lt (n : Nat) {l : List Char} (hmem : '?' ∈ l)
    (hrep : '?' ∉ ('$' :: natDecimal n)) :
    (replaceFirst ['?'] ('$' :: natDecimal n) l).count '?' < l.count '?' := by
  induction l with
  | nil => simp at hmem
  | cons c cs ih =>
    by_cases hc : c = '?'
    · subst hc
      have hif : replaceFirst ['?'] ('$' :: natDecimal n) ('?' :: cs)
          = ('$' :: natDecimal n) ++ cs := by
        simp [replaceFirst, List.isPrefixOf]
      rw [hif, List.count_append, List.count_cons_self]
      have h0 : (('$' :: natDecimal n) : List Char).count '?' = 0 :=
        List.count_eq_zero.2 hrep
      omega
    · have hbe : ('?' == c) = false := beq_eq_false_iff_ne.2 (fun h => hc h.symm)
      have hif : replaceFirst ['?'] ('$' :: natDecimal n) (c :: cs)
          = c :: replaceFirst ['?'] ('$' :: natDecimal n) cs := by
        simp [replaceFirst, List.isPrefixOf, hbe]
      rw [hif]
      have hmem' : '?' ∈ cs := by
        rcases List.mem_cons.1 hmem with h1 | h2
        · exact absurd h1.symm hc
        · exact h2
      have hlt := ih hmem'
      rw [List.count_cons_of_ne (fun h => hc h.symm),
        List.count_cons_of_ne (fun h => hc h.symm)]
      exact hlt

/-- The loop body of `ConvertDollarPlaceholder` for `dbType == "postgres"`:
`for strings.Contains(sql, "?") { sql = strings.Replace(sql, "?", fmt.Sprintf("$%d", n), 1); n++ }`.
Termination: each iteration removes one `'?'` and the replacement
`"$" ++ digits` contains none. -/
def convertLoop (n : Nat) (l : List Char) : List Char :=
  if l.contains '?' then
    convertLoop (n + 1) (replaceFirst ['?'] ('$' :: natDecimal n) l)
  else l
termination_by l.count '?'
decreasing_by
  rename_i h
  have hmem : '?' ∈ l := by
    simpa using h
  -- the replacement string contains no '?'
  have hrep : '?' ∉ ('$' :: natDecimal n) := by
    intro hx
    rcases List.mem_cons.1 hx with h1 | h2
    · exact absurd h1 (by decide)
    · exact absurd h2 (natDecimal_no_question n)
  exact count_replaceFirst_lt n hmem hrep

/-- Embedding of `ConvertDollarPlaceholder(sql, dbType)`: for `"postgres"`,
repeatedly replace the first `"?"` by `"$n"` with `n` counting up from 1;
otherwise return `sql` unchanged. -/
def ConvertDollarPlaceholder (sql dbType : String) : String :=
  if dbType = "postgres" then ⟨convertLoop 1 sql.data⟩ else sql

/-- The claim's reading of the postgres conversion: a single left-to-right
pass in which the i-th `'?'` (counting from `n`) becomes `'$'` followed by
the decimal digits of `i`. -/
def dollarSpecPass (n : Nat) : List Char → List Char
  | [] => []
  | c :: cs =>
    if c = '?' then ('$' :: natDecimal n) ++ dollarSpecPass (n + 1) cs
    else c :: dollarSpecPass n cs

theorem contains_q_iff (l : List Char) : l.contains '?' = true ↔ '?' ∈ l :=
  List.elem_iff

theorem convertLoop_pos {l : List Char} (h : l.contains '?' = true) (n : Nat) :
    convertLoop n l = convertLoop (n + 1) (replaceFirst ['?'] ('$' :: natDecimal n) l) := by
  conv_lhs => rw [convertLoop]
  rw [if_pos h]

theorem convertLoop_neg {l : List Char} (h : l.contains '?' = false) (n : Nat) :
    convertLoop n l = l := by
  conv_lhs => rw [convertLoop]
  rw [if_neg (by simp only [h]; exact Bool.false_ne_true)]

theorem replaceFirst_append_no_q (rep : List Char) {l₁ : List Char} (h1 : '?' ∉ l₁)
    (l₂ : List Char) :
    replaceFirst ['?'] rep (l₁ ++ l₂) = l₁ ++ replaceFirst ['?'] rep l₂ := by
  induction l₁ with
  | nil => simp
  | cons c cs ih =>
    have hc : c ≠ '?' := fun h => h1 (h ▸ List.mem_cons_self c cs)
    have hbe : ('?' == c) = false := beq_eq_false_iff_ne.2 (fun h => hc h.symm)
    have h1' : '?' ∉ cs := fun h => h1 (List.mem_cons_of_mem c h)
    simp only [List.cons_append, replaceFirst, List.isPrefixOf, hbe, Bool.false_and,
      List.cons.injEq, if_neg (by simp : ¬(false = true)), true_and]
    exact ih h1'

theorem convertLoop_append {l₁ : List Char} (h1 : '?' ∉ l₁) :
    ∀ k l₂ n, l₂.count '?' ≤ k → convertLoop n (l₁ ++ l₂) = l₁ ++ convertLoop n l₂ := by
  intro k
  induction k with
  | zero =>
    intro l₂ n hle
    have h2 : '?' ∉ l₂ := by
      intro hmem
      have := List.count_pos_iff.2 hmem
      omega
    have hc1 : (l₁ ++ l₂).contains '?' = false := by
      rw [← Bool.not_eq_true]
      intro h
      rcases List.mem_append.1 ((contains_q_iff _).1 h) with h | h
      · exact h1 h
      · exact h2 h
    have hc2 : l₂.contains '?' = false := by
      rw [← Bool.not_eq_true]
      exact fun h => h2 ((contains_q_iff _).1 h)
    rw [convertLoop_neg hc1, convertLoop_neg hc2]
  | succ k ih =>
    intro l₂ n hle
    by_cases hc : l₂.contains '?' = true
    · have hmem : '?' ∈ l₂ := (contains_q_iff _).1 hc
      have hc1 : (l₁ ++ l₂).contains '?' = true :=
        (contains_q_iff _).2 (List.mem_append.2 (Or.inr hmem))
      have hrep : '?' ∉ ('$' :: natDecimal n) := by
        intro hx
        rcases List.mem_cons.1 hx with h | h
        · exact absurd h (by decide)
        · exact natDecimal_no_question n h
      have hlt := count_replaceFirst_lt n hmem hrep
      rw [convertLoop_pos hc1, replaceFirst_append_no_q _ h1,
        ih _ (n + 1) (by omega), convertLoop_pos hc]
    · have hcf : l₂.contains '?' = false := by
        rw [← Bool.not_eq_true]; exact hc
      have h2 : '?' ∉ l₂ := fun h => hc ((contains_q_iff _).2 h)
      have hc1 : (l₁ ++ l₂).contains '?' = false := by
        rw [← Bool.not_eq_true]
        intro h
        rcases List.mem_append.1 ((contains_q_iff _).1 h) with h | h
        · exact h1 h
        · exact h2 h
      rw [convertLoop_neg hc1, convertLoop_neg hcf]

theorem convertLoop_eq_spec : ∀ (l : List Char) (n : Nat),
    convertLoop n l = dollarSpecPass n l := by
  intro l
  induction l with
  | nil =>
    intro n
    rw [convertLoop_neg (by rfl)]
    rfl
  | cons c cs ih =>
    intro n
    by_cases hc : c = '?'
    · subst hc
      have hcont : ('?' :: cs).contains '?' = true :=
        (contains_q_iff _).2 (List.mem_cons_self _ _)
      have hrf : replaceFirst ['?'] ('$' :: natDecimal n) ('?' :: cs)
          = ('$' :: natDecimal n) ++ cs := by
        simp [replaceFirst, List.isPrefixOf]
      have hrep : '?' ∉ ('$' :: natDecimal n) := by
        intro hx
        rcases List.mem_cons.1 hx with h | h
        · exact absurd h (by decide)
        · exact natDecimal_no_question n h
      rw [convertLoop_pos hcont, hrf,
        convertLoop_append hrep (cs.count '?') cs (n + 1) le_rfl, ih (n + 1)]
      simp [dollarSpecPass]
    · have h1 : '?' ∉ [c] := by
        intro h
        exact hc (List.mem_singleton.1 h).symm
      have hstep : convertLoop n ([c] ++ cs) = [c] ++ convertLoop n cs :=
        convertLoop_append h1 (cs.count '?') cs n le_rfl
      simp only [List.singleton_append] at hstep
      rw [hstep, ih n]
      simp [dollarSpecPass, hc]

/-! ## `ToString` from `utils/str/str.go` -/

/-- Decimal digits of an `Int`, as produced by Go `strconv.Itoa` /
`strconv.FormatInt(v, 10)`. -/
def intDecimal (i : Int) : List Char :=
  if i < 0 then '-' :: natDecimal (-i).toNat else natDecimal i.toNat

/-- Embedding of `strconv.Itoa`. -/
def strconvItoa (i : Int) : String := ⟨intDecimal i⟩

/-- Go `int(v)` applied to a `uint` value `n < 2^64`: wraps into the
signed 64-bit range. -/
def intOfUint (n : Nat) : Int :=
  if n < 2 ^ 63 then (n : Int) else (n : Int) - 2 ^ 64

/-- A Go `interface{}` value as discriminated by `ToString`'s type switch.
Floating-point formatting (`strconv.FormatFloat`) is not re-implemented:
the float constructors carry the formatted representation that Go call
would produce.  `stringer` carries the result of `v.String()`, `goError`
the result of `v.Error()`, and `other` the result of `json.Marshal`
(`none` when marshalling fails). -/
inductive GoValue where
  | nil
  | string (s : String)
  | bool (b : Bool)
  | float64 (formatted : String)
  | float32 (formatted : String)
  | int (v : Int)
  | uint (v : Nat)
  | int8 (v : Int)
  | uint8 (v : Nat)
  | int16 (v : Int)
  | uint16 (v : Nat)
  | int32 (v : Int)
  | uint32 (v : Nat)
  | int64 (v : Int)
  | uint64 (v : Nat)
  | bytes (s : String)
  | stringer (s : String)
  | goError (s : String)
  | other (json : Option String)
deriving DecidableEq, Repr

/-- Embedding of `ToString(input)`: the type switch of
`utils/str/str.go`. -/
def ToString : GoValue → String
  | .nil => ""
  | .string v => v
  | .bool v => if v then "true" else "false"
  | .float64 f => f
  | .float32 f => f
  | .int v => strconvItoa v
  | .uint v => strconvItoa (intOfUint v)
  | .int8 v => strconvItoa v
  | .uint8 v => strconvItoa (v : Int)
  | .int16 v => strconvItoa v
  | .uint16 v => strconvItoa (v : Int)
  | .int32 v => strconvItoa v
  | .uint32 v => strconvItoa (v : Int)
  | .int64 v => strconvItoa v
  | .uint64 v => ⟨natDecimal v⟩
  | .bytes s => s
  | .stringer s => s
  | .goError s => s
  | .other (some j) => j
  | .other none => ""

/-! ## `api/types/config.go` -/

/-- Embedding of `pool.WorkerPool` as the configuration layer sees it: the
`MaxWorkersCount` capacity field, and whether `Start()` was called. -/
structure WorkerPool where
  MaxWorkersCount : Nat
  started : Bool
deriving DecidableEq, Repr

/-- `math.MaxInt32`. -/
def maxInt32 : Nat := 2147483647

/-- Engine configuration `types.Config`.  Function- and interface-valued
fields (callbacks, registry, parser, logger) are modelled by presence
alone (`Option Unit`): a Go `nil` field is `none`.  `JsMaxExecutionTime`
is a `time.Duration` counted in nanoseconds; its Go zero value is 0. -/
structure Config where
  OnDebug : Option Unit := none
  OnEnd : Option Unit := none
  JsMaxExecutionTime : Int := 0
  Pool : Option WorkerPool := none
  ComponentsRegistry : Option Unit := none
  Parser : Option Unit := none
  Logger : Option Unit := none
deriving DecidableEq, Repr

/-- `time.Millisecond` in nanoseconds. -/
def timeMillisecond : Int := 1000000

/-- Go `type Option = func(*Config) error`.  Every option defined in
`config.go` returns a `nil` error and `NewConfig` discards the error
(`_ = opt(c)`), so an option acts as a configuration transformer.
(Named `ConfigOption` because `Option` is taken in Lean.) -/
abbrev ConfigOption : Type := Config → Config

/-- `DefaultLogger()` — an always-present (non-nil) logger value. -/
def DefaultLogger : Option Unit := some ()

/-- Embedding of `NewConfig(opts...)`: defaults
`JsMaxExecutionTime: time.Millisecond * 2000` and
`Logger: DefaultLogger()`, then applies the options in order. -/
def NewConfig (opts : List ConfigOption) : Config :=
  opts.foldl (fun c opt => opt c)
    { JsMaxExecutionTime := 2000 * timeMillisecond, Logger := DefaultLogger }

/-- Embedding of `DefaultPool()`: a started `WorkerPool` with
`MaxWorkersCount: math.MaxInt32`. -/
def DefaultPool : WorkerPool := { MaxWorkersCount := maxInt32, started := true }

/-- `WithPool(pool)`. -/
def WithPool (p : WorkerPool) : ConfigOption := fun c => { c with Pool := some p }

/-- `WithDefaultPool()`. -/
def WithDefaultPool : ConfigOption := fun c => { c with Pool := some DefaultPool }

/-- `WithOnEnd(onEnd)` (the callback itself is opaque). -/
def WithOnEnd : ConfigOption := fun c => { c with OnEnd := some () }

/-- `WithJsMaxExecutionTime(jsMaxExecutionTime)`. -/
def WithJsMaxExecutionTime (d : Int) : ConfigOption :=
  fun c => { c with JsMaxExecutionTime := d }

/-! ## `components/action/db_client_node.go` -/

def SELECT : String := "SELECT"
def INSERT : String := "INSERT"
def DELETE : String := "DELETE"
def UPDATE : String := "UPDATE"

def rowsAffectedKey : String := "rowsAffected"
def lastInsertIdKey : String := "lastInsertId"

/-- Go `unicode.IsSpace` restricted to ASCII, which is what the SQL texts
involved contain. -/
def isGoSpace (c : Char) : Bool :=
  c = ' ' || c = '\t' || c = '\n' || c = '\r' || c = '\x0b' || c = '\x0c'

def goFieldsAux (acc : List Char) : List Char → List (List Char)
  | [] => if acc.isEmpty then [] else [acc.reverse]
  | c :: cs =>
    if isGoSpace c then
      if acc.isEmpty then goFieldsAux [] cs else acc.reverse :: goFieldsAux [] cs
    else goFieldsAux (c :: acc) cs

/-- Embedding of Go `strings.Fields(s)`: the maximal runs of non-whitespace
characters of `s`, in order. -/
def goFields (s : String) : List String :=
  (goFieldsAux [] s.data).map fun l => ⟨l⟩

/-- ASCII upper-casing of one character, as Go `strings.ToUpper` performs
on the ASCII texts involved here. -/
def goUpperChar (c : Char) : Char :=
  if 'a' ≤ c ∧ c ≤ 'z' then Char.ofNat (c.toNat - 32) else c

/-- Embedding of Go `strings.ToUpper(s)` (ASCII range). -/
def goToUpper (s : String) : String := ⟨s.data.map goUpperChar⟩

/-- `DbClientNodeConfiguration` — the node-specific typed record decoded
from the untyped attribute bag. -/
structure DbClientNodeConfiguration where
  Sql : String := ""
  Params : List GoValue := []
  GetOne : Bool := false
  PoolSize : Int := 0
  DbType : String := ""
  Dsn : String := ""
deriving DecidableEq, Repr

/-- The `DbClientNode` state after `Init`: its decoded configuration, the
derived operation type, and whether any string parameter contains a
`${}` variable. -/
structure DbClientNode where
  config : DbClientNodeConfiguration := {}
  opType : String := ""
  paramsHasVar : Bool := false
  dbOpened : Bool := false
deriving DecidableEq, Repr

/-- Outcome of running a Go function that may panic. -/
inductive GoOutcome (α : Type) where
  | panicked (msg : String)
  | ok (v : α)
deriving DecidableEq, Repr

/-- `sql.Open(dbType, dsn)` succeeds exactly when a driver for `dbType` is
registered; the file imports the `mysql` and `pq` drivers. -/
def sqlOpenOk (dbType : String) : Bool :=
  dbType = "mysql" || dbType = "postgres"

/-- Embedding of `DbClientNode.Init(ruleConfig, configuration)`.  The
`maps.Map2Struct` decode is represented by receiving the typed record
directly; `db.Ping()` contacts the network, so its result is the
parameter `pingErr`.  The result pairs the initialized node with the
returned error; `panicked` records a Go runtime panic. -/
def DbClientNode.Init (ruleConfig : Config) (configuration : DbClientNodeConfiguration)
    (pingErr : Option String) : GoOutcome (DbClientNode × Option String) :=
  let cfg1 := if configuration.DbType = "" then { configuration with DbType := "mysql" }
    else configuration
  if sqlOpenOk cfg1.DbType then
    -- SetMaxOpenConns / SetMaxIdleConns: pool tuning, no state observed here
    match goFields cfg1.Sql with
    | [] =>
      -- `words[0]` on the empty slice returned by strings.Fields: runtime panic
      .panicked "runtime error: index out of range [0] with length 0"
    | w :: _ =>
      let opType := goToUpper w
      let err1 := if opType = SELECT ∨ opType = UPDATE ∨ opType = INSERT ∨ opType = DELETE
        then pingErr
        else some ("unsupported sql statement: " ++ cfg1.Sql)
      let hasVar := cfg1.Params.any fun item =>
        match item with
        | .string v => CheckHasVar v
        | _ => false
      let cfg2 := { cfg1 with Sql := ConvertDollarPlaceholder cfg1.Sql cfg1.DbType }
      .ok ({ config := cfg2, opType := opType, paramsHasVar := hasVar, dbOpened := true },
        err1)
  else
    .ok ({ config := cfg1, opType := "", paramsHasVar := false, dbOpened := false },
      some ("sql: unknown driver " ++ cfg1.DbType))

/-- `RuleMsg`: message type tag, payload and metadata.  The metadata map is
carried together with its iteration order as an association list (the Go
field is named `Type`, which Lean reserves). -/
structure RuleMsg where
  Ty : String := ""
  Data : String := ""
  Metadata : List (String × String) := []
deriving DecidableEq, Repr

/-- `Metadata.PutValue(key, value)`: update the binding of `key`, or append
it. -/
def putValue : List (String × String) → String → String → List (String × String)
  | [], k, v => [(k, v)]
  | (k', v') :: rest, k, v =>
    if k' = k then (k, v) :: rest else (k', v') :: putValue rest k v

/-- A call to one of the execution context's continuation primitives. -/
inductive TellCall where
  | tellSuccess (msg : RuleMsg)
  | tellFailure (msg : RuleMsg) (err : String)
  | tellNext (msg : RuleMsg) (relation : String)
deriving DecidableEq, Repr

/-- What one database call produced: the queried data (`SELECT`), the
affected row count (`UPDATE`/`INSERT`/`DELETE`) and the last insert id
(`INSERT`). -/
structure DbData where
  data : GoValue := .nil
  rowsAffected : Int := 0
  lastInsertId : Int := 0
deriving DecidableEq, Repr

/-- Embedding of `DbClientNode.OnMsg(ctx, msg)`.  The database round-trip
is the external parameter `dbCall`, invoked on the substituted statement
and parameters; its `Except` error is the `err` of the corresponding
`query`/`update`/`insert`/`delete` call.  The result records, in order,
the continuation-primitive calls made on `ctx`, and the error value
`OnMsg` returns. -/
def DbClientNode.OnMsg (x : DbClientNode) (msg : RuleMsg)
    (dbCall : String → List GoValue → Except String DbData) :
    List TellCall × Option String :=
  let sqlStr := SprintfDict x.config.Sql msg.Metadata
  let params := if x.paramsHasVar then
      x.config.Params.map fun item =>
        match item with
        | .string v => GoValue.string (SprintfDict v msg.Metadata)
        | _ => item
    else x.config.Params
  let opErr : Option String :=
    if x.opType = SELECT ∨ x.opType = UPDATE ∨ x.opType = INSERT ∨ x.opType = DELETE then
      match dbCall sqlStr params with
      | .error e => some e
      | .ok _ => none
    else some ("unsupported sql statement: " ++ sqlStr)
  match opErr with
  | some e => ([TellCall.tellFailure msg e], some e)
  | none =>
    let d := match dbCall sqlStr params with
      | .ok d => d
      | .error _ => {}
    let mdUpd := putValue msg.Metadata rowsAffectedKey (ToString (.int64 d.rowsAffected))
    let mdIns := putValue mdUpd lastInsertIdKey (ToString (.int64 d.lastInsertId))
    let msg' :=
      if x.opType = SELECT then { msg with Data := ToString d.data }
      else if x.opType = UPDATE ∨ x.opType = DELETE then { msg with Metadata := mdUpd }
      else { msg with Metadata := mdIns }
    ([TellCall.tellSuccess msg'], none)

/-! ## Dispatch and end-of-message callback (modelled from the spec) -/

/-- Modelled from the spec: the engine's dispatch algorithm and
end-of-message callback invocation (spec §4.3), whose implementation is
not part of the excerpt.  Nodes are numbered; `adj node` is the
relation-resolved target list of `node` for the relation it told.  A node
with zero targets is a terminal leaf for its traversal path and the
end-of-message callback fires once there, with that path's message; with
one or more targets, each target is dispatched independently (fan-out)
and contributes its own leaf completions.  `fuel` bounds the recursion
depth — the compiled graph is a DAG, so a sufficient fuel exists.  The
result lists the end-of-message callback invocations as
(leaf node, message) pairs, in dispatch order. -/
def dispatchEnds (adj : Nat → List Nat) (msg : String) : Nat → Nat → List (Nat × String)
  | 0, _ => []
  | fuel + 1, node =>
    if adj node = [] then [(node, msg)]
    else ((adj node).map fun t => dispatchEnds adj msg fuel t).flatten

/-- The fan-out chain of the claim: node 0 (`A`) has both node 1 (`B`) and
node 2 (`C`) as targets on `"Success"`; `B` and `C` are terminal. -/
def fanoutAdj : Nat → List Nat := fun n => if n = 0 then [1, 2] else []

/-! ## Worker pool (modelled from the spec) -/

/-- Modelled from the spec: the observable scheduling state of
`pool.WorkerPool` (spec §4.4), whose implementation is not part of the
excerpt.  `cap` is the configured capacity, `running` the number of
concurrently executing tasks, `queued` the number of submitted tasks
waiting for capacity. -/
structure PoolState where
  cap : Nat
  running : Nat
  queued : Nat
deriving DecidableEq, Repr

/-- A scheduling event: a task submission, or the completion of a running
task. -/
inductive PoolEvent where
  | submit
  | complete
deriving DecidableEq, Repr

/-- Modelled from the spec: one scheduling step.  A submission starts a
new task immediately while under the cap, and queues otherwise; a
completion hands the freed slot to a queued task when one is waiting. -/
def poolStep (s : PoolState) : PoolEvent → PoolState
  | .submit =>
    if s.running < s.cap then { s with running := s.running + 1 }
    else { s with queued := s.queued + 1 }
  | .complete =>
    if 0 < s.queued then { s with queued := s.queued - 1 }
    else { s with running := s.running - 1 }

/-- Run a sequence of scheduling events. -/
def poolRun (s : PoolState) (es : List PoolEvent) : PoolState := es.foldl poolStep s

theorem poolStep_cap (s : PoolState) (e : PoolEvent) : (poolStep s e).cap = s.cap := by
  cases e <;> simp only [poolStep] <;> split <;> rfl

theorem poolStep_running_le (s : PoolState) (e : PoolEvent) (h : s.running ≤ s.cap) :
    (poolStep s e).running ≤ s.cap := by
  cases e <;> simp only [poolStep] <;> split <;> simp <;> omega

theorem poolRun_running_le :
    ∀ (es : List PoolEvent) (s : PoolState), s.running ≤ s.cap →
      (poolRun s es).running ≤ s.cap := by
  intro es
  induction es with
  | nil => intro s h; exact h
  | cons e es ih =>
    intro s h
    have h1 : (poolStep s e).running ≤ (poolStep s e).cap := by
      rw [poolStep_cap]
      exact poolStep_running_le s e h
    have h2 := ih (poolStep s e) h1
    rw [poolStep_cap] at h2
    exact h2

theorem poolRun_fill :
    ∀ (n i K : Nat), i + n ≤ K →
      poolRun ⟨K, i, 0⟩ (List.replicate n .submit) = ⟨K, i + n, 0⟩ := by
  intro n
  induction n with
  | zero => intro i K _; simp [poolRun]
  | succ n ih =>
    intro i K hle
    rw [List.replicate_succ]
    show poolRun (poolStep ⟨K, i, 0⟩ .submit) (List.replicate n .submit) = _
    have hi : i < K := by omega
    have hstep : poolStep ⟨K, i, 0⟩ .submit = ⟨K, i + 1, 0⟩ := by
      simp [poolStep, hi]
    rw [hstep, ih (i + 1) K (by omega)]
    congr 1
    omega

/-! ## Concrete inputs used by counterexamples and witnesses -/

/-- A `DbClientNode` as `Init` leaves it for configuration
`{Sql: "SELECT 1", DbType: "mysql"}`. -/
def dbNodeSelect : DbClientNode :=
  { config := { Sql := "SELECT 1", DbType := "mysql" },
    opType := "SELECT", paramsHasVar := false, dbOpened := true }

/-- A database call that fails (e.g. the server is unreachable). -/
def dbFailCall : String → List GoValue → Except String DbData :=
  fun _ _ => .error "sql: connection refused"

/-! ## Theorems for the claims -/

/-- C1 (counterexample): at the concrete invocation in which the database
call fails, `DbClientNode.OnMsg` both calls a continuation primitive
(`TellFailure`) and returns a non-nil error, so it does not satisfy
"exactly one primitive and nil, or no primitive and non-nil". -/
theorem db_client_onmsg_contract_counterexample :
    ¬ (((DbClientNode.OnMsg dbNodeSelect {} dbFailCall).1.length = 1 ∧
          (DbClientNode.OnMsg dbNodeSelect {} dbFailCall).2 = none) ∨
        ((DbClientNode.OnMsg dbNodeSelect {} dbFailCall).1 = [] ∧
          (DbClientNode.OnMsg dbNodeSelect {} dbFailCall).2 ≠ none)) := by
  decide

/-- C1 (amended): `DbClientNode.OnMsg` always calls exactly one
continuation primitive; it returns nil when that call was `TellSuccess`,
and when the operation fails it calls `TellFailure(msg, err)` and returns
that same non-nil `err` — so the "exactly one primitive or an error, never
both" contract does not hold for its failure path. -/
theorem db_client_onmsg_one_tell (x : DbClientNode) (msg : RuleMsg)
    (dbCall : String → List GoValue → Except String DbData) :
    (∃ m, DbClientNode.OnMsg x msg dbCall = ([TellCall.tellSuccess m], none)) ∨
      (∃ e, DbClientNode.OnMsg x msg dbCall = ([TellCall.tellFailure msg e], some e)) := by
  unfold DbClientNode.OnMsg
  dsimp only
  split
  · rename_i e heq
    exact Or.inr ⟨e, rfl⟩
  · exact Or.inl ⟨_, rfl⟩

/-- C2: in the fan-out chain `A→{B,C}` (both targets of the told
relation), dispatching one input message invokes the end-of-message
callback exactly twice, once per terminal leaf, each invocation carrying
that path's message; and in general a node with targets contributes the
concatenation of its branches' independent leaf completions, never a
joined single completion. -/
theorem onend_once_per_leaf :
    (∀ msg : String, dispatchEnds fanoutAdj msg 2 0 = [(1, msg), (2, msg)] ∧
      (dispatchEnds fanoutAdj msg 2 0).length = 2) ∧
    ∀ (adj : Nat → List Nat) (msg : String) (fuel node : Nat), adj node ≠ [] →
      dispatchEnds adj msg (fuel + 1) node
        = ((adj node).map fun t => dispatchEnds adj msg fuel t).flatten := by
  constructor
  · intro msg
    constructor <;> rfl
  · intro adj msg fuel node hne
    rw [dispatchEnds]
    rw [if_neg hne]

/-- C2 (witness for the general conjunct): the fan-out chain at its root. -/
theorem onend_once_per_leaf_witness :
    fanoutAdj 0 ≠ [] ∧
      dispatchEnds fanoutAdj "m" 2 0
        = ((fanoutAdj 0).map fun t => dispatchEnds fanoutAdj "m" 1 t).flatten :=
  ⟨by decide, onend_once_per_leaf.2 fanoutAdj "m" 1 0 (by decide)⟩

/-- C3 (counterexample): the configuration built by `NewConfig()` contains
no worker pool at all — its `Pool` field is Go `nil`. -/
theorem newconfig_pool_counterexample : (NewConfig []).Pool = none := rfl

/-- C3 (amended): `NewConfig()` leaves `Pool` nil (dispatch then falls back
to plain `go func`, which always starts tasks immediately); a pool with
`MaxWorkersCount = math.MaxInt32` is what `DefaultPool()` produces and
what `WithDefaultPool()` installs, but `NewConfig` does not install it by
itself. -/
theorem newconfig_pool_amended :
    (NewConfig []).Pool = none ∧
      DefaultPool.MaxWorkersCount = 2147483647 ∧
      (NewConfig [WithDefaultPool]).Pool = some DefaultPool := by
  refine ⟨rfl, rfl, rfl⟩

/-- C4: `NewConfig()` with no options sets `JsMaxExecutionTime` to
2000 `time.Millisecond`, i.e. 2000000000 nanoseconds. -/
theorem newconfig_js_max_execution_time :
    (NewConfig []).JsMaxExecutionTime = 2000 * timeMillisecond ∧
      (NewConfig []).JsMaxExecutionTime = 2000000000 :=
  ⟨rfl, rfl⟩

/-- C5 (divergence): `DbClientNode.Init` panics — it does not return an
error — when `Sql` is empty or blank: `strings.Fields` yields an empty
slice and `words[0]` is an out-of-range index.  For a non-blank statement
that starts with an unsupported keyword it does return the documented
error, which is the behaviour the claim describes. -/
theorem db_client_init_blank_sql_panics :
    (∀ pingErr : Option String,
      DbClientNode.Init (NewConfig []) { Sql := "" } pingErr
        = .panicked "runtime error: index out of range [0] with length 0") ∧
    (∀ pingErr : Option String,
      DbClientNode.Init (NewConfig []) { Sql := "   " } pingErr
        = .panicked "runtime error: index out of range [0] with length 0") ∧
    (∃ n : DbClientNode,
      DbClientNode.Init (NewConfig []) { Sql := "DROP TABLE t" } none
        = .ok (n, some "unsupported sql statement: DROP TABLE t")) := by
  refine ⟨fun _ => rfl, fun _ => rfl,
    ⟨{ config := { Sql := "DROP TABLE t", DbType := "mysql" },
       opType := "DROP", paramsHasVar := false, dbOpened := true }, by decide⟩⟩

/-- C6: whenever `Init` returns (rather than panics), a configuration
whose `DbType` was omitted (decoded to `""`) yields a node whose
effective `DbType` is `"mysql"`. -/
theorem db_client_init_dbtype_defaults_mysql (rc : Config)
    (cfg : DbClientNodeConfiguration) (pingErr : Option String)
    (n : DbClientNode) (e : Option String) (hdb : cfg.DbType = "")
    (hinit : DbClientNode.Init rc cfg pingErr = .ok (n, e)) :
    n.config.DbType = "mysql" := by
  unfold DbClientNode.Init at hinit
  rw [if_pos hdb] at hinit
  dsimp only at hinit
  rw [show sqlOpenOk "mysql" = true from rfl] at hinit
  simp only [if_pos rfl, if_true] at hinit
  cases hf : goFields cfg.Sql with
  | nil =>
    rw [hf] at hinit
    cases hinit
  | cons w ws =>
    rw [hf] at hinit
    dsimp only at hinit
    rw [GoOutcome.ok.injEq, Prod.mk.injEq] at hinit
    rw [← hinit.1]

/-- C6 (witness): the defaulting theorem applied at a concrete omitted
`DbType`. -/
theorem db_client_init_dbtype_defaults_mysql_witness :
    dbNodeSelect.config.DbType = "mysql" :=
  db_client_init_dbtype_defaults_mysql (NewConfig []) { Sql := "SELECT 1" } none
    dbNodeSelect none rfl (by decide)

/-- C7: in the worker-pool model, after any event sequence starting from
an idle pool of capacity `K` at most `K` tasks are running; submitting
`K+1` tasks back-to-back fills the pool to `K` running and leaves the
`(K+1)`-th queued, and that queued task starts exactly when one of the
running tasks completes. -/
theorem pool_capacity_bound :
    (∀ (K : Nat) (es : List PoolEvent), (poolRun ⟨K, 0, 0⟩ es).running ≤ K) ∧
    (∀ K : Nat, poolRun ⟨K, 0, 0⟩ (List.replicate (K + 1) .submit) = ⟨K, K, 1⟩) ∧
    (∀ K : Nat, poolStep ⟨K, K, 1⟩ .complete = ⟨K, K, 0⟩) := by
  refine ⟨?_, ?_, ?_⟩
  · intro K es
    exact poolRun_running_le es ⟨K, 0, 0⟩ (Nat.zero_le K)
  · intro K
    have h1 : poolRun ⟨K, 0, 0⟩ (List.replicate K .submit) = ⟨K, K, 0⟩ := by
      have h := poolRun_fill K 0 K (by omega)
      simpa using h
    rw [List.replicate_succ', poolRun, List.foldl_append]
    rw [show (List.replicate K PoolEvent.submit).foldl poolStep ⟨K, 0, 0⟩
        = (⟨K, K, 0⟩ : PoolState) from h1]
    show poolStep ⟨K, K, 0⟩ .submit = _
    have hK : ¬ (K < K) := lt_irrefl K
    simp [poolStep, hK]
  · intro K
    simp [poolStep]

/-- C8: `ConvertDollarPlaceholder` is a total function; for every `dbType`
other than `"postgres"` it returns `sql` unchanged, and for `"postgres"`
it equals the single left-to-right pass that replaces the i-th `"?"` of
`sql` by `"$i"`, with `i` counting from 1. -/
theorem convert_dollar_placeholder_spec (sql dbType : String)
    (h : dbType ≠ "postgres") :
    ConvertDollarPlaceholder sql dbType = sql ∧
      ConvertDollarPlaceholder sql "postgres" = ⟨dollarSpecPass 1 sql.data⟩ := by
  constructor
  · unfold ConvertDollarPlaceholder
    rw [if_neg h]
  · unfold ConvertDollarPlaceholder
    rw [if_pos rfl, convertLoop_eq_spec]

/-- C8 (witness): the placeholder conversion at a concrete statement and a
concrete non-postgres database type. -/
theorem convert_dollar_placeholder_spec_witness :
    ("mysql" : String) ≠ "postgres" ∧
      (ConvertDollarPlaceholder "a?b?" "mysql" = "a?b?" ∧
        ConvertDollarPlaceholder "a?b?" "postgres" = ⟨dollarSpecPass 1 "a?b?".data⟩) :=
  ⟨by decide, convert_dollar_placeholder_spec "a?b?" "mysql" (by decide)⟩

/-- A two-entry dictionary in one iteration order: the value of key `a`
contains the placeholder of key `b`. -/
def dictAB : List (String × String) := [("a", "$\x7bb\x7d"), ("b", "X")]

/-- The same dictionary in the other iteration order. -/
def dictBA : List (String × String) := [("b", "X"), ("a", "$\x7bb\x7d")]

/-- C9 (counterexample): two iteration orders of the same dictionary give
different results — processing `a` first lets the substituted `$\x7bb\x7d`
be rewritten by the later key `b`, processing `b` first leaves it — so
`SprintfDict` is not independent of the key processing order. -/
theorem sprintf_dict_order_counterexample :
    dictAB.Perm dictBA ∧
      SprintfDict "$\x7ba\x7d" dictAB ≠ SprintfDict "$\x7ba\x7d" dictBA := by
  constructor
  · decide
  · decide

/-- C9 (amended): `SprintfDict`'s result can depend on the unspecified map
iteration order once a substituted value mentions another key's
placeholder; order-independence does hold for dictionaries with at most
one entry, where only one processing order exists. -/
theorem sprintf_dict_order_small (pattern : String)
    (d₁ d₂ : List (String × String)) (hperm : d₁.Perm d₂) (hlen : d₁.length ≤ 1) :
    SprintfDict pattern d₁ = SprintfDict pattern d₂ := by
  have hd : d₁ = d₂ := by
    cases d₁ with
    | nil => exact (List.perm_nil.1 hperm.symm).symm
    | cons x xs =>
      cases xs with
      | nil => exact (List.perm_singleton.1 hperm.symm).symm
      | cons y ys => simp at hlen
  rw [hd]

/-- C9 (witness): the order-independence theorem at a one-entry
dictionary. -/
theorem sprintf_dict_order_small_witness :
    ([("a", "1")] : List (String × String)).Perm [("a", "1")] ∧
      ([("a", "1")] : List (String × String)).length ≤ 1 ∧
      SprintfDict "k" [("a", "1")] = SprintfDict "k" [("a", "1")] :=
  ⟨by decide, by decide, sprintf_dict_order_small "k" _ _ (by decide) (by decide)⟩

/-- C10: `ToString` is a total function of the modelled `interface{}`
values; `ToString(nil)` is the empty string, and on every string value
`ToString` is the identity. -/
theorem tostring_nil_empty_and_string_id :
    ToString GoValue.nil = "" ∧ ∀ s : String, ToString (GoValue.string s) = s :=
  ⟨rfl, fun _ => rfl⟩

end Rulego
